import Mathlib

set_option maxRecDepth 100000

/-!
Shallow embedding of the react-icon-builder generator.

The repository holds two near-identical pipelines:
the path-only (outline) pipeline in the unnamed source file, and the
full-markup (solid) pipeline in src/main.ts.  Both share the functions
toPascalCase, clearAndUpper, getFileNameFromUrl and fetchGithubSvgUrls
verbatim, and the same per-URL loop with a per-item try/catch.

Strings are modelled as Lean String and List Char (the inputs of interest
are ASCII, where JavaScript UTF-16 code-unit indexing agrees with
character indexing).  Network effects are modelled by explicit
environments: the directory-listing response is an
Option (List FileEntry) (none models a transport or non-2xx failure,
which axios surfaces as a thrown error) and the per-URL fetch is a
function String to Option String (none models a thrown fetch error).
The filesystem write is modelled by returning the written path and text.
-/

/-- JavaScript word character class, the regex class backslash-w:
ASCII letters, digits and underscore. -/
def isWordChar (c : Char) : Bool :=
  c.isAlpha || c.isDigit || c = '_'

/-- JavaScript whitespace class, the regex class backslash-s:
tab through carriage return, space, and the Unicode space characters
recognized by ECMAScript. -/
def isJsSpace (c : Char) : Bool :=
  ('\t' ≤ c && c ≤ '\x0d') || c = ' ' || c = '\u00A0' || c = '\u1680' ||
  ('\u2000' ≤ c && c ≤ '\u200A') || c = '\u2028' || c = '\u2029' ||
  c = '\u202F' || c = '\u205F' || c = '\u3000' || c = '\uFEFF'

/-- Removes the first hyphen of a character list: the JavaScript
text.replace(hyphenRegex, emptyString) inside clearAndUpper (a
non-global regex replaces only the first occurrence). -/
def removeFirstHyphen : List Char → List Char
  | [] => []
  | c :: rest => if c = '-' then rest else c :: removeFirstHyphen rest

/-- Source function clearAndUpper (identical in both pipeline files):
text.replace(hyphenRegex, emptyString).toUpperCase(), applied to a
matched slice. -/
def clearAndUpper (text : List Char) : List Char :=
  (removeFirstHyphen text).map Char.toUpper

/-- The global scan of the regex (^w|-w) for positions past the start:
only the hyphen-then-word-char alternative can fire there.  Each match
of a hyphen followed by a word char is rewritten by clearAndUpper and the
scan resumes after the match, exactly as String.prototype.replace with
the g flag does. -/
def pascalScan : List Char → List Char
  | [] => []
  | c :: rest =>
    if c = '-' then
      match rest with
      | [] => ['-']
      | c2 :: rest2 =>
        if isWordChar c2 then clearAndUpper ['-', c2] ++ pascalScan rest2
        else '-' :: pascalScan (c2 :: rest2)
    else c :: pascalScan rest

/-- The full first replace of toPascalCase,
str.replace(anchoredWordOrHyphenWordRegex, clearAndUpper): the anchored
alternative can only fire on the very first character; this wrapper
handles it and hands the rest of the string to the global scan. -/
def pascalReplaced : List Char → List Char
  | [] => []
  | c :: rest =>
    if isWordChar c then clearAndUpper [c] ++ pascalScan rest
    else pascalScan (c :: rest)

/-- Source function toPascalCase (identical in both pipeline files):
the replace above, then removal of every remaining hyphen (the global
hyphen regex), then the fixed suffix Icon appended. -/
def toPascalCase (s : String) : String :=
  String.mk ((pascalReplaced s.data).filter (fun c => c != '-')) ++ "Icon"

/-- The last path segment of a URL:
url.substring(url.lastIndexOf(slash) + 1, url.length).  When no slash
occurs, lastIndexOf is -1 and the whole string is returned. -/
def afterLastSlash : List Char → List Char
  | [] => []
  | c :: rest =>
    if '/' ∈ rest then afterLastSlash rest
    else if c = '/' then rest
    else c :: rest

/-- fileName.replace(".svg", emptyString): a string pattern in
JavaScript String.prototype.replace replaces only the first (leftmost)
occurrence. -/
def replaceFirstSvg : List Char → List Char
  | [] => []
  | c :: rest =>
    if List.isPrefixOf ['.', 's', 'v', 'g'] (c :: rest) then rest.drop 3
    else c :: replaceFirstSvg rest

/-- Source function getFileNameFromUrl (identical in both pipeline
files): last path segment with the first occurrence of .svg removed. -/
def getFileNameFromUrl (url : String) : String :=
  String.mk (replaceFirstSvg (afterLastSlash url.data))

/-- The capture group ([^quote]*) followed by its closing double quote:
collects characters up to the first double quote and fails when no
closing quote exists. -/
def captureQuote : List Char → Option (List Char)
  | [] => none
  | c :: rest =>
    if c = '"' then some []
    else Option.map (fun cap => c :: cap) (captureQuote rest)

/-- The tag part of the regex, matching [^gt]*d="([^quote]*)" with the
greedy backtracking semantics of the JavaScript engine: the star over
non-gt characters is greedy, so among the candidate positions of the
literal d=" that lie before the first greater-than sign, the rightmost
one admitting a closing quote wins. -/
def tagMatch : List Char → Option (List Char)
  | [] => none
  | 'd' :: '=' :: '"' :: rest2 =>
    (match tagMatch rest2 with
     | some cap => some cap
     | none => captureQuote rest2)
  | c :: rest => if c = '>' then none else tagMatch rest

/-- Attempts the whole regex, LTpath-space then the tag part, at one
start position. -/
def matchAt : List Char → Option (List Char)
  | '<' :: 'p' :: 'a' :: 't' :: 'h' :: c :: rest =>
    if isJsSpace c then tagMatch rest else none
  | _ => none

/-- svgData.match(/LTpath s[^gt]*d="([^quote]*)"/) restricted to its
first capture group: the leftmost start position at which the pattern
matches wins, as in pathMatch[1] of the source. -/
def firstPathD : List Char → Option (List Char)
  | [] => none
  | c :: rest =>
    match matchAt (c :: rest) with
    | some cap => some cap
    | none => firstPathD rest

/-- JavaScript String.prototype.trim: strips JavaScript whitespace from
both ends. -/
def jsTrim (s : String) : String :=
  String.mk (((s.data.dropWhile isJsSpace).reverse.dropWhile isJsSpace).reverse)

/-- The template literal of the path-only pipeline (lines 58-80 of the
unnamed source file), with the three interpolation slots iconName,
ariaLabel and pathData. -/
def reactComponentText (iconName ariaLabel pathData : String) : String :=
  "\nimport \x7b IconProps \x7d from \x27./types\x27;\n\nexport default function " ++ iconName
  ++ "(props: IconProps) \x7b\n  return (\n    <svg\n      xmlns=\"http://www.w3.org/2000/svg\"\n      fill=\"none\"\n      viewBox=\"0 0 24 24\"\n      strokeWidth=\x7b1.5\x7d\n      stroke=\"currentColor\"\n      className=\"arctic-icon-medium\"\n      aria-label=\"" ++ ariaLabel
  ++ "\"\n      \x7b...props\x7d\n    >\n      <path\n        strokeLinecap=\"round\"\n        strokeLinejoin=\"round\"\n        d=\"" ++ pathData
  ++ "\"\n      />\n    </svg>\n  );\n\x7d"

/-- join(process.cwd(), "src", "assets", "icons", iconName + ".tsx") for
an ordinary working directory. -/
def outputPath (cwd iconName : String) : String :=
  cwd ++ "/src/assets/icons/" ++ iconName ++ ".tsx"

/-- Outcome of one iteration of the per-URL loop of convertSvgToReact:
a file written at a path with some text, a skip with the logged
diagnostic when no path matched, or a caught fetch error. -/
inductive ItemResult where
  | written (path : String) (text : String)
  | skippedNoPath (fileName : String)
  | fetchError (url : String)
  deriving DecidableEq, Repr

/-- One iteration of the loop body of convertSvgToReact in the
path-only pipeline: derive fileName, iconName and ariaLabel from the
URL, fetch (a thrown fetch error is caught by the surrounding try),
match the path regex (no match logs and continues), interpolate the
template, trim it and write it to the fixed output path. -/
def processUrl (cwd : String) (fetch : String → Option String)
    (url : String) : ItemResult :=
  let fileName := getFileNameFromUrl url
  let iconName := toPascalCase fileName
  let ariaLabel := fileName
  match fetch url with
  | none => ItemResult.fetchError url
  | some svgData =>
    match firstPathD svgData.data with
    | none => ItemResult.skippedNoPath fileName
    | some pathData =>
      ItemResult.written (outputPath cwd iconName)
        (jsTrim (reactComponentText iconName ariaLabel (String.mk pathData)))

/-- Source function convertSvgToReact of the path-only pipeline: the
sequential for-of loop whose body is wrapped in try/catch, so every URL
is processed regardless of the outcome of the others. -/
def convertSvgToReact (cwd : String) (fetch : String → Option String) :
    List String → List ItemResult
  | [] => []
  | url :: rest => processUrl cwd fetch url :: convertSvgToReact cwd fetch rest

/-- One entry of the GitHub contents listing, with the two fields the
source reads. -/
structure FileEntry where
  name : String
  download_url : String
  deriving DecidableEq, Repr

/-- The files.forEach push loop of fetchGithubSvgUrls: keeps, in listing
order, the download_url of every entry whose name ends with .svg. -/
def collectSvgUrls : List FileEntry → List String
  | [] => []
  | f :: rest =>
    if List.isSuffixOf ".svg".data f.name.data then
      f.download_url :: collectSvgUrls rest
    else collectSvgUrls rest

/-- Source function fetchGithubSvgUrls (identical in both pipeline
files), with the listing response as an explicit argument: none models
a transport or non-2xx axios error, which the catch block turns into an
empty array. -/
def fetchGithubSvgUrls (resp : Option (List FileEntry)) : List String :=
  match resp with
  | some files => collectSvgUrls files
  | none => []

/-- Source function processGithubSvgs of the path-only pipeline with
its two network effects mocked: list the directory, then run the
conversion loop over the returned URLs. -/
def runOutlinePipeline (cwd : String) (resp : Option (List FileEntry))
    (fetch : String → Option String) : List ItemResult :=
  convertSvgToReact cwd fetch (fetchGithubSvgUrls resp)

/-- Decides whether needle occurs as a contiguous substring of the
haystack. -/
def hasSub (needle : List Char) : List Char → Bool
  | [] => needle.isEmpty
  | c :: rest => List.isPrefixOf needle (c :: rest) || hasSub needle rest

/-- A hyphen-separated join of words, the shape of a hyphenated
lowercase file-name stem. -/
def hyphenJoin : List (List Char) → List Char
  | [] => []
  | [w] => w
  | w :: ws => w ++ '-' :: hyphenJoin ws

/-- A word with its first character upper-cased. -/
def capWord : List Char → List Char
  | [] => []
  | c :: rest => Char.toUpper c :: rest

/-- The twenty-six lowercase ASCII letters. -/
def lowerAscii : List Char :=
  [ 'a', 'b', 'c', 'd', 'e', 'f', 'g', 'h', 'i', 'j', 'k', 'l', 'm',
    'n', 'o', 'p', 'q', 'r', 's', 't', 'u', 'v', 'w', 'x', 'y', 'z' ]

/-! Concrete mock inputs used by the end-to-end and transformer
claims. -/

/-- Direct-download URL of the mocked listing entry check.svg. -/
def checkUrl : String := "https://raw.example.com/outline/check.svg"

/-- Mocked fetched body of the end-to-end claim. -/
def checkBody : String := "<svg><path d=\"M1 1L2 2\"/></svg>"

/-- The component text the path-only pipeline emits for the check
icon. -/
def checkContent : String :=
  jsTrim (reactComponentText "CheckIcon" "check" "M1 1L2 2")

/-- Markup with two path elements carrying distinct d values. -/
def twoPathMarkup : String :=
  "<svg><path d=\"M1 1L2 2\"/><path d=\"M9 9L8 8\"/></svg>"

/-- The component text emitted for twoPathMarkup. -/
def twoPathContent : String :=
  jsTrim (reactComponentText "TwoIcon" "two" "M1 1L2 2")

/-- Markup with two path elements carrying the same d value. -/
def dupPathMarkup : String :=
  "<svg><path d=\"M1 1L2 2\"/><path d=\"M1 1L2 2\"/></svg>"

/-- The component text emitted for dupPathMarkup. -/
def dupPathContent : String :=
  jsTrim (reactComponentText "DupIcon" "dup" "M1 1L2 2")

/-- A three-URL fetch environment whose middle URL fails. -/
def c6Fetch : String → Option String := fun u =>
  if u = "https://x/broken.svg" then none
  else if u = "https://x/alpha.svg" then some "<svg><path d=\"M0 0\"/></svg>"
  else some "<svg><path d=\"M2 2\"/></svg>"

/-! Helper lemmas. -/

/-- A list without hyphens is left unchanged by removeFirstHyphen. -/
theorem removeFirstHyphen_id (l : List Char) (h : '-' ∉ l) :
    removeFirstHyphen l = l := by
  induction l with
  | nil => rfl
  | cons a l ih =>
    have ha : a ≠ '-' := fun hEq => h (hEq ▸ List.mem_cons_self a l)
    have hl : '-' ∉ l := fun hm => h (List.mem_cons_of_mem a hm)
    simp only [removeFirstHyphen, if_neg ha, ih hl]

/-- Unfolding of the global scan on a non-hyphen head. -/
theorem pascalScan_cons (c : Char) (rest : List Char) (hc : c ≠ '-') :
    pascalScan (c :: rest) = c :: pascalScan rest := by
  cases rest with
  | nil => rw [pascalScan.eq_2, if_neg hc]
  | cons c2 rest2 => rw [pascalScan.eq_3, if_neg hc]

/-- Unfolding of the global scan on a hyphen followed by a word
character: the two-character match is rewritten by clearAndUpper. -/
theorem pascalScan_hyphen_word (c2 : Char) (rest2 : List Char)
    (hw : isWordChar c2 = true) :
    pascalScan ('-' :: c2 :: rest2) = clearAndUpper ['-', c2] ++ pascalScan rest2 := by
  rw [pascalScan.eq_3, if_pos rfl, if_pos hw]

/-- A word-character segment is passed through unchanged by the global
scan, which only fires on hyphens. -/
theorem pascalScan_append (w t : List Char) (hw : ∀ c ∈ w, c ≠ '-') :
    pascalScan (w ++ t) = w ++ pascalScan t := by
  induction w with
  | nil => rfl
  | cons a w ih =>
    have ha : a ≠ '-' := hw a (List.mem_cons_self a w)
    rw [List.cons_append, pascalScan_cons a (w ++ t) ha,
      ih (fun c hc => hw c (List.mem_cons_of_mem a hc))]
    rfl

/-- A hyphen-free list is a fixed point of the global scan. -/
theorem pascalScan_id (t : List Char) (ht : ∀ c ∈ t, c ≠ '-') :
    pascalScan t = t := by
  have h := pascalScan_append t [] ht
  simpa [pascalScan] using h

/-- The three facts about lowercase ASCII letters the name-derivation
proofs need. -/
theorem lowerAscii_facts :
    ∀ c ∈ lowerAscii, isWordChar c = true ∧ c ≠ '-' ∧ Char.toUpper c ≠ '-' := by
  decide

/-- Filtering out hyphens from a hyphen-free list is the identity. -/
theorem filter_ne_hyphen (l : List Char) (h : ∀ c ∈ l, c ≠ '-') :
    l.filter (fun c => c != '-') = l := by
  induction l with
  | nil => rfl
  | cons a l ih =>
    have ha : (a != '-') = true := by
      simpa [bne_iff_ne] using h a (List.mem_cons_self a l)
    rw [List.filter_cons, if_pos ha, ih (fun c hc => h c (List.mem_cons_of_mem a hc))]

/-- The global scan turns every hyphen-prefixed lowercase word into the
word with its head capitalized. -/
theorem pascalScan_hyphen_join (ws : List (List Char)) (hne : ws ≠ [])
    (hw : ∀ w ∈ ws, w ≠ []) (hlc : ∀ w ∈ ws, ∀ c ∈ w, c ∈ lowerAscii) :
    pascalScan ('-' :: hyphenJoin ws) = (ws.map capWord).flatten := by
  induction ws with
  | nil => exact absurd rfl hne
  | cons w ws ih =>
    obtain ⟨c, w2, rfl⟩ : ∃ c w2, w = c :: w2 := by
      cases w with
      | nil => exact absurd rfl (hw [] (List.mem_cons_self _ _))
      | cons c w2 => exact ⟨c, w2, rfl⟩
    have hcl : ∀ x ∈ c :: w2, x ∈ lowerAscii := hlc _ (List.mem_cons_self _ _)
    have hcf := lowerAscii_facts c (hcl c (List.mem_cons_self c w2))
    have hw2 : ∀ x ∈ w2, x ≠ '-' :=
      fun x hx => (lowerAscii_facts x (hcl x (List.mem_cons_of_mem c hx))).2.1
    have hCU : clearAndUpper ['-', c] = [Char.toUpper c] := by
      simp [clearAndUpper, removeFirstHyphen]
    cases ws with
    | nil =>
      show pascalScan ('-' :: hyphenJoin [c :: w2]) = _
      rw [show hyphenJoin [c :: w2] = c :: w2 from rfl]
      rw [pascalScan_hyphen_word c w2 hcf.1, hCU, pascalScan_id w2 hw2]
      simp [capWord]
    | cons w3 ws3 =>
      have hj : hyphenJoin ((c :: w2) :: w3 :: ws3) =
          c :: (w2 ++ '-' :: hyphenJoin (w3 :: ws3)) := by
        simp [hyphenJoin]
      rw [hj, pascalScan_hyphen_word c _ hcf.1, hCU, pascalScan_append w2 _ hw2]
      rw [ih (by simp) (fun x hx => hw x (List.mem_cons_of_mem _ hx))
          (fun x hx => hlc x (List.mem_cons_of_mem _ hx))]
      simp [capWord]

/-- The first replace of toPascalCase capitalizes every word of a
hyphen-separated lowercase stem. -/
theorem pascalReplaced_words (ws : List (List Char)) (hne : ws ≠ [])
    (hw : ∀ w ∈ ws, w ≠ []) (hlc : ∀ w ∈ ws, ∀ c ∈ w, c ∈ lowerAscii) :
    pascalReplaced (hyphenJoin ws) = (ws.map capWord).flatten := by
  obtain ⟨w, ws2, rfl⟩ : ∃ w ws2, ws = w :: ws2 := by
    cases ws with
    | nil => exact absurd rfl hne
    | cons w ws2 => exact ⟨w, ws2, rfl⟩
  obtain ⟨c, w2, rfl⟩ : ∃ c w2, w = c :: w2 := by
    cases w with
    | nil => exact absurd rfl (hw [] (List.mem_cons_self _ _))
    | cons c w2 => exact ⟨c, w2, rfl⟩
  have hcl : ∀ x ∈ c :: w2, x ∈ lowerAscii := hlc _ (List.mem_cons_self _ _)
  have hcf := lowerAscii_facts c (hcl c (List.mem_cons_self c w2))
  have hw2 : ∀ x ∈ w2, x ≠ '-' :=
    fun x hx => (lowerAscii_facts x (hcl x (List.mem_cons_of_mem c hx))).2.1
  have hCU : clearAndUpper [c] = [Char.toUpper c] := by
    have hr : removeFirstHyphen [c] = [c] :=
      removeFirstHyphen_id [c]
        (fun hm => hcf.2.1 ((List.mem_singleton.mp hm).symm))
    simp [clearAndUpper, hr]
  cases ws2 with
  | nil =>
    show pascalReplaced (hyphenJoin [c :: w2]) = _
    rw [show hyphenJoin [c :: w2] = c :: w2 from rfl]
    rw [show pascalReplaced (c :: w2) =
        (if isWordChar c then clearAndUpper [c] ++ pascalScan w2
         else pascalScan (c :: w2)) from rfl]
    rw [if_pos hcf.1, hCU, pascalScan_id w2 hw2]
    simp [capWord]
  | cons w3 ws3 =>
    have hj : hyphenJoin ((c :: w2) :: w3 :: ws3) =
        c :: (w2 ++ '-' :: hyphenJoin (w3 :: ws3)) := by
      simp [hyphenJoin]
    rw [hj]
    rw [show pascalReplaced (c :: (w2 ++ '-' :: hyphenJoin (w3 :: ws3))) =
        (if isWordChar c then
          clearAndUpper [c] ++ pascalScan (w2 ++ '-' :: hyphenJoin (w3 :: ws3))
         else pascalScan (c :: (w2 ++ '-' :: hyphenJoin (w3 :: ws3)))) from rfl]
    rw [if_pos hcf.1, hCU, pascalScan_append w2 _ hw2]
    rw [pascalScan_hyphen_join (w3 :: ws3) (by simp)
        (fun x hx => hw x (List.mem_cons_of_mem _ hx))
        (fun x hx => hlc x (List.mem_cons_of_mem _ hx))]
    simp [capWord]

/-- No character of the capitalized join is a hyphen. -/
theorem capJoin_no_hyphen (ws : List (List Char))
    (hlc : ∀ w ∈ ws, ∀ c ∈ w, c ∈ lowerAscii) :
    ∀ ch ∈ (ws.map capWord).flatten, ch ≠ '-' := by
  intro ch hch
  rcases List.mem_flatten.mp hch with ⟨l, hl, hchl⟩
  rcases List.mem_map.mp hl with ⟨w, hwmem, rfl⟩
  cases w with
  | nil => simp [capWord] at hchl
  | cons c w2 =>
    rcases List.mem_cons.mp hchl with hEq | h2
    · exact hEq ▸ (lowerAscii_facts c (hlc _ hwmem c (List.mem_cons_self c w2))).2.2
    · exact (lowerAscii_facts ch (hlc _ hwmem ch (List.mem_cons_of_mem c h2))).2.1


/-- A successful capture group never contains a double quote: the group
is the class of non-quote characters and stops at the closing quote. -/
theorem captureQuote_no_quote (t : List Char) :
    ∀ cap, captureQuote t = some cap → '"' ∉ cap := by
  induction t with
  | nil => intro cap h; simp [captureQuote] at h
  | cons c rest ih =>
    intro cap h
    simp only [captureQuote] at h
    by_cases hc : c = '"'
    · rw [if_pos hc] at h
      cases h
      simp
    · rw [if_neg hc] at h
      rcases Option.map_eq_some'.mp h with ⟨cap2, hcap2, hEq⟩
      subst hEq
      intro hmem
      rcases List.mem_cons.mp hmem with h1 | h2
      · exact hc h1.symm
      · exact ih cap2 hcap2 h2

/-- Whatever candidate the greedy tag scan settles on, its capture came
from captureQuote and so holds no double quote. -/
theorem tagMatch_no_quote (t : List Char) :
    ∀ cap, tagMatch t = some cap → '"' ∉ cap := by
  induction t using tagMatch.induct with
  | case1 => intro cap h; simp [tagMatch] at h
  | case2 rest2 cap2 hrec ih =>
    intro cap h
    have he : tagMatch ('d' :: '=' :: '"' :: rest2) = some cap2 := by
      rw [tagMatch, hrec]
    rw [he] at h
    injection h with hEq
    subst hEq
    exact ih cap2 hrec
  | case3 rest2 hrec ih =>
    intro cap h
    have he : tagMatch ('d' :: '=' :: '"' :: rest2) = captureQuote rest2 := by
      rw [tagMatch, hrec]
    rw [he] at h
    exact captureQuote_no_quote rest2 cap h
  | case4 rest hpat =>
    intro cap h
    rw [tagMatch.eq_3 '>' rest hpat, if_pos rfl] at h
    cases h
  | case5 c rest hpat hc ih =>
    intro cap h
    rw [tagMatch.eq_3 c rest hpat, if_neg hc] at h
    exact ih cap h

/-- A successful whole-pattern attempt at one position yields a capture
without double quotes. -/
theorem matchAt_no_quote (cs : List Char) :
    ∀ cap, matchAt cs = some cap → '"' ∉ cap := by
  intro cap h
  unfold matchAt at h
  split at h
  · split at h
    · exact tagMatch_no_quote _ cap h
    · cases h
  · cases h

/-- The capture of the leftmost successful position holds no double
quote. -/
theorem firstPathD_no_quote (cs : List Char) :
    ∀ cap, firstPathD cs = some cap → '"' ∉ cap := by
  induction cs with
  | nil => intro cap h; simp [firstPathD] at h
  | cons c rest ih =>
    intro cap h
    rcases hm : matchAt (c :: rest) with _ | cap2
    · have he : firstPathD (c :: rest) = firstPathD rest := by
        rw [firstPathD, hm]
      rw [he] at h
      exact ih cap h
    · have he : firstPathD (c :: rest) = some cap2 := by
        rw [firstPathD, hm]
      rw [he] at h
      injection h with hEq
      subst hEq
      exact matchAt_no_quote (c :: rest) cap2 hm

/-- The forEach push loop is the filter-then-project of the listing. -/
theorem collectSvgUrls_eq (files : List FileEntry) :
    collectSvgUrls files =
      (files.filter (fun f => List.isSuffixOf ".svg".data f.name.data)).map
        FileEntry.download_url := by
  induction files with
  | nil => rfl
  | cons f files ih =>
    by_cases hf : List.isSuffixOf ".svg".data f.name.data
    · rw [collectSvgUrls, if_pos hf, List.filter_cons, if_pos hf, List.map_cons, ih]
    · rw [collectSvgUrls, if_neg hf, List.filter_cons, if_neg hf, ih]

/-- The sequential loop processes each URL independently. -/
theorem convertSvgToReact_eq_map (cwd : String) (fetch : String → Option String)
    (urls : List String) :
    convertSvgToReact cwd fetch urls = urls.map (processUrl cwd fetch) := by
  induction urls with
  | nil => rfl
  | cons url rest ih => rw [convertSvgToReact, ih, List.map_cons]

/-- replaceFirstSvg removes exactly the leftmost occurrence of .svg. -/
theorem replaceFirstSvg_leftmost (cs pre post : List Char)
    (hsplit : cs = pre ++ '.' :: 's' :: 'v' :: 'g' :: post)
    (hmin : ∀ pre2 post2, cs = pre2 ++ '.' :: 's' :: 'v' :: 'g' :: post2 →
      pre.length ≤ pre2.length) :
    replaceFirstSvg cs = pre ++ post := by
  subst hsplit
  induction pre generalizing post with
  | nil =>
    simp only [List.nil_append]
    rw [replaceFirstSvg, if_pos (by simp [List.isPrefixOf])]
    rfl
  | cons a pre ih =>
    have hnp : ¬ (List.isPrefixOf ['.', 's', 'v', 'g']
        (a :: (pre ++ '.' :: 's' :: 'v' :: 'g' :: post)) = true) := by
      intro hpref
      rcases List.isPrefixOf_iff_prefix.mp hpref with ⟨t, ht⟩
      have h0 := hmin [] t (by simpa using ht.symm)
      simp at h0
    simp only [List.cons_append]
    rw [replaceFirstSvg, if_neg hnp]
    rw [ih post (fun pre2 post2 h2 => by
      have h3 := hmin (a :: pre2) post2 (by simp [h2])
      simp at h3
      omega)]

/-! Claim theorems. -/

/-- C2: for every file-name stem consisting of nonempty lowercase words
separated by hyphens, toPascalCase capitalizes each word, leaves no
hyphen, and appends the fixed suffix Icon exactly once: the result is
precisely the concatenation of the capitalized words followed by
Icon. -/
theorem claim_C2 (ws : List (List Char)) (hne : ws ≠ [])
    (hw : ∀ w ∈ ws, w ≠ []) (hlc : ∀ w ∈ ws, ∀ c ∈ w, c ∈ lowerAscii) :
    toPascalCase (String.mk (hyphenJoin ws)) =
      String.mk ((ws.map capWord).flatten) ++ "Icon" := by
  rw [toPascalCase, show (String.mk (hyphenJoin ws)).data = hyphenJoin ws from rfl,
    pascalReplaced_words ws hne hw hlc,
    filter_ne_hyphen _ (capJoin_no_hyphen ws hlc)]

/-- C2 witness: the required instance arrow-left maps to
ArrowLeftIcon. -/
theorem claim_C2_witness : toPascalCase "arrow-left" = "ArrowLeftIcon" := by
  have h := claim_C2 [['a', 'r', 'r', 'o', 'w'], ['l', 'e', 'f', 't']]
    (by decide) (by decide) (by decide)
  exact h.trans (by decide)

/-- C3: on a successful listing the Source Lister returns exactly the
download_url values of the entries whose name ends in the lowercase
extension .svg, in listing order; an uppercase .SVG entry is
excluded. -/
theorem claim_C3 :
    (∀ files : List FileEntry, fetchGithubSvgUrls (some files) =
      (files.filter (fun f => List.isSuffixOf ".svg".data f.name.data)).map
        FileEntry.download_url) ∧
    fetchGithubSvgUrls (some
      [⟨"a.svg", "https://x/a.svg"⟩, ⟨"b.png", "https://x/b.png"⟩,
       ⟨"c.SVG", "https://x/c.SVG"⟩]) = ["https://x/a.svg"] := by
  constructor
  · intro files
    exact collectSvgUrls_eq files
  · decide

/-- C7: a failed listing yields the empty URL sequence, so the batch
processes zero items; no error reaches the caller. -/
theorem claim_C7 :
    fetchGithubSvgUrls none = [] ∧
    ∀ (cwd : String) (fetch : String → Option String),
      convertSvgToReact cwd fetch (fetchGithubSvgUrls none) = [] :=
  ⟨rfl, fun _ _ => rfl⟩

/-- C8 counterexample: toPascalCase applied to one of its own outputs
appends the suffix a second time, so name derivation is not idempotent
under its own output format. -/
theorem claim_C8_counterexample :
    toPascalCase (toPascalCase "arrow-left") = "ArrowLeftIconIcon" ∧
    toPascalCase (toPascalCase "arrow-left") ≠ toPascalCase "arrow-left" := by
  decide

/-- C8 amended: on any hyphen-free input starting with a word character
that is already upper case (in particular any PascalCase identifier
already ending in Icon), toPascalCase returns the input with Icon
appended again. -/
theorem claim_C8 (c : Char) (cs : List Char) (hc : isWordChar c = true)
    (hup : Char.toUpper c = c) (hno : '-' ∉ c :: cs) :
    toPascalCase (String.mk (c :: cs)) = String.mk (c :: cs) ++ "Icon" := by
  have hc2 : c ≠ '-' := fun hEq => hno (hEq ▸ List.mem_cons_self c cs)
  have hcs : ∀ x ∈ cs, x ≠ '-' :=
    fun x hx hEq => hno (hEq ▸ List.mem_cons_of_mem c hx)
  have hr : removeFirstHyphen [c] = [c] :=
    removeFirstHyphen_id [c] (fun hm => hc2 ((List.mem_singleton.mp hm).symm))
  rw [toPascalCase, show (String.mk (c :: cs)).data = c :: cs from rfl]
  rw [show pascalReplaced (c :: cs) =
      (if isWordChar c then clearAndUpper [c] ++ pascalScan cs
       else pascalScan (c :: cs)) from rfl]
  rw [if_pos hc, show clearAndUpper [c] = [Char.toUpper c] from by simp [clearAndUpper, hr]]
  rw [hup, pascalScan_id cs hcs]
  simp only [List.singleton_append]
  rw [filter_ne_hyphen _ (fun x hx hEq => hno (hEq ▸ hx))]

/-- C8 witness: the amended behavior at the already-derived name
ArrowLeftIcon. -/
theorem claim_C8_witness :
    toPascalCase "ArrowLeftIcon" = "ArrowLeftIcon" ++ "Icon" := by
  have h := claim_C8 'A' "rrowLeftIcon".data (by decide) (by decide) (by decide)
  exact h

/-- C9: getFileNameFromUrl removes only the first (leftmost) literal
occurrence of .svg from the last path segment, not necessarily the
trailing extension: icon.svg.svg gives icon.svg, and in a.svg.b the
interior occurrence is removed. -/
theorem claim_C9 :
    (∀ cs pre post : List Char, cs = pre ++ '.' :: 's' :: 'v' :: 'g' :: post →
      (∀ pre2 post2, cs = pre2 ++ '.' :: 's' :: 'v' :: 'g' :: post2 →
        pre.length ≤ pre2.length) →
      replaceFirstSvg cs = pre ++ post) ∧
    getFileNameFromUrl "https://h/icons/icon.svg.svg" = "icon.svg" ∧
    getFileNameFromUrl "https://h/icons/a.svg.b" = "a.b" :=
  ⟨replaceFirstSvg_leftmost, by decide, by decide⟩

/-- C9 witness: the general leftmost-removal statement applied to the
segment a.svg.b at its unique occurrence. -/
theorem claim_C9_witness : replaceFirstSvg "a.svg.b".data = "a.b".data := by
  have hmin : ∀ pre2 post2 : List Char,
      "a.svg.b".data = pre2 ++ '.' :: 's' :: 'v' :: 'g' :: post2 →
      (['a'] : List Char).length ≤ pre2.length := by
    intro pre2 post2 h
    cases pre2 with
    | nil =>
      rw [show "a.svg.b".data = 'a' :: '.' :: 's' :: 'v' :: 'g' :: '.' :: 'b' :: [] from rfl,
        List.nil_append] at h
      injection h with h1 h2
      exact absurd h1 (by decide)
    | cons b pre3 => simp
  exact claim_C9.1 "a.svg.b".data ['a'] ['.', 'b'] rfl hmin

/-- C10: the path capture pattern excludes the double quote, so every
extracted d value is quote-free and the interpolated d attribute is a
well-formed quoted attribute (exactly two quotes: the delimiters). -/
theorem claim_C10 (cs d : List Char) (h : firstPathD cs = some d) :
    '"' ∉ d ∧ List.count '"' ('d' :: '=' :: '"' :: (d ++ ['"'])) = 2 := by
  have hnq := firstPathD_no_quote cs d h
  refine ⟨hnq, ?_⟩
  have hz : List.count '"' d = 0 := List.count_eq_zero.mpr hnq
  simp [List.count_cons, List.count_append, hz]

/-- C10 witness: the capture from the check icon markup is quote-free
and its interpolated attribute carries exactly the two delimiters. -/
theorem claim_C10_witness :
    ('"' : Char) ∉ "M1 1L2 2".data ∧
    List.count '"' ('d' :: '=' :: '"' :: ("M1 1L2 2".data ++ ['"'])) = 2 :=
  claim_C10 "<svg><path d=\"M1 1L2 2\"/></svg>".data "M1 1L2 2".data (by decide)

/-- C5: a fetched body on which the path pattern finds no match is
skipped with the logged diagnostic, no file is written for it, and the
loop continues with the remaining URLs. -/
theorem claim_C5 (cwd : String) (fetch : String → Option String)
    (url body : String) (hf : fetch url = some body)
    (hm : firstPathD body.data = none) :
    processUrl cwd fetch url = ItemResult.skippedNoPath (getFileNameFromUrl url) ∧
    ∀ rest, convertSvgToReact cwd fetch (url :: rest) =
      ItemResult.skippedNoPath (getFileNameFromUrl url) ::
        convertSvgToReact cwd fetch rest := by
  have hp : processUrl cwd fetch url =
      ItemResult.skippedNoPath (getFileNameFromUrl url) := by
    simp only [processUrl, hf, hm]
  exact ⟨hp, fun rest => by rw [convertSvgToReact, hp]⟩

/-- C5 witness: a body with zero path elements is skipped. -/
theorem claim_C5_witness :
    processUrl "" (fun _ => some "<svg></svg>") "https://x/empty.svg" =
      ItemResult.skippedNoPath "empty" := by
  have h := claim_C5 "" (fun _ => some "<svg></svg>") "https://x/empty.svg"
    "<svg></svg>" rfl (by decide)
  exact h.1.trans (by decide)

/-- C6: the loop handles every URL independently (it is a map of the
per-item body over the batch), and concretely a fetch failure on the
middle URL of a three-URL batch still yields output files for the other
two. -/
theorem claim_C6 :
    (∀ (cwd : String) (fetch : String → Option String) (urls : List String),
      convertSvgToReact cwd fetch urls = urls.map (processUrl cwd fetch)) ∧
    convertSvgToReact "" c6Fetch
      ["https://x/alpha.svg", "https://x/broken.svg", "https://x/beta.svg"] =
      [ItemResult.written "/src/assets/icons/AlphaIcon.tsx"
         (jsTrim (reactComponentText "AlphaIcon" "alpha" "M0 0")),
       ItemResult.fetchError "https://x/broken.svg",
       ItemResult.written "/src/assets/icons/BetaIcon.tsx"
         (jsTrim (reactComponentText "BetaIcon" "beta" "M2 2"))] :=
  ⟨convertSvgToReact_eq_map, by decide⟩

/-- C1: with a listing of the single file check.svg and the mocked
body, the path-only pipeline writes exactly one file, derived name
CheckIcon at the fixed output path, whose text contains the d attribute
M1 1L2 2 and the accessibility label check. -/
theorem claim_C1 (cwd : String) (fetch : String → Option String)
    (hf : fetch checkUrl = some checkBody) :
    runOutlinePipeline cwd (some [⟨"check.svg", checkUrl⟩]) fetch =
      [ItemResult.written (outputPath cwd "CheckIcon") checkContent] ∧
    hasSub "d=\"M1 1L2 2\"".data checkContent.data = true ∧
    hasSub "aria-label=\"check\"".data checkContent.data = true := by
  refine ⟨?_, by decide, by decide⟩
  have h1 : fetchGithubSvgUrls (some [⟨"check.svg", checkUrl⟩]) = [checkUrl] := by
    decide
  rw [runOutlinePipeline, h1, convertSvgToReact, convertSvgToReact]
  have hp : processUrl cwd fetch checkUrl =
      ItemResult.written (outputPath cwd "CheckIcon") checkContent := by
    simp only [processUrl, hf]
    rw [show firstPathD checkBody.data = some "M1 1L2 2".data from by decide]
    rw [show getFileNameFromUrl checkUrl = "check" from by decide]
    rw [show toPascalCase "check" = "CheckIcon" from by decide]
    rfl
  rw [hp]

/-- C1 witness: the pipeline run with a concrete working directory and
fetch environment. -/
theorem claim_C1_witness :
    runOutlinePipeline "/repo" (some [⟨"check.svg", checkUrl⟩])
      (fun _ => some checkBody) =
      [ItemResult.written "/repo/src/assets/icons/CheckIcon.tsx" checkContent] := by
  have h := claim_C1 "/repo" (fun _ => some checkBody) rfl
  exact h.1.trans (by decide)

/-- C4 counterexample: for markup holding two path elements whose d
values coincide, the d value of the second (later) path element is a
substring of the emitted component text, so it is not absent from the
output as the claim states. -/
theorem claim_C4_counterexample :
    processUrl "" (fun _ => some dupPathMarkup) "https://x/dup.svg" =
      ItemResult.written "/src/assets/icons/DupIcon.tsx" dupPathContent ∧
    hasSub "M1 1L2 2".data dupPathContent.data = true :=
  ⟨by decide, by decide⟩

/-- C4 amended: only the first matching path element determines the
output: the extraction result is unchanged by anything after the first
path element (so later paths are dropped), and a later d value is
absent from the emitted text whenever it does not already occur in the
text generated from the first match alone, as in the concrete two-path
markup with distinct values. -/
theorem claim_C4 :
    (∀ rest : List Char,
      firstPathD ("<svg><path d=\"M1 1L2 2\"/>".data ++ rest) =
        some "M1 1L2 2".data) ∧
    processUrl "" (fun _ => some twoPathMarkup) "https://x/two.svg" =
      ItemResult.written "/src/assets/icons/TwoIcon.tsx" twoPathContent ∧
    hasSub "d=\"M1 1L2 2\"".data twoPathContent.data = true ∧
    hasSub "M9 9L8 8".data twoPathContent.data = false :=
  ⟨fun rest => rfl, by decide, by decide, by decide⟩

